import Mathlib

/-
Verification of the JSON-file storage layer of the note/task service.

Shallow embedding conventions:
* Timestamps are modelled as natural numbers (milliseconds since the epoch).
  The source stores ISO-8601 UTC strings produced by `toISOString`; for a
  fixed-offset clock those strings order exactly as their instants, so the
  natural-number model is faithful for every comparison the claims make.
* Each operation of `note-storage` / `task-storage` is a pure function from
  the collection it reads (plus a current time `now` and, where the source
  generates a random id, the generated id as a parameter) to the collection
  it writes back plus its return value.  `readX`/`writeX` pairs in the
  source delimit exactly this read-modify-write shape.
* The uploads directory is modelled as the list of on-disk file paths, and
  `fs.unlinkSync` failures by an oracle `fails : String → Bool`; the source
  wraps every unlink in try/catch and only logs the failure.
* JavaScript `array.find(p) || null` is `List.find?`, `findIndex` followed
  by a splice/assignment is structural recursion on the list, `array.map`
  / `array.filter` are `List.map` / `List.filter`.
-/

namespace NoteService

/-- Model of `String.prototype.toLowerCase()` (character-wise lowering;
the label names the claims exercise are ASCII). -/
def lowerStr (s : String) : String := ⟨s.data.map Char.toLower⟩

/-- Label record (`Label` in `types/note`, structurally identical to
`TaskLabel` in `types/task`). -/
structure Label where
  id : String
  name : String
  color : String
  createdAt : Nat
  updatedAt : Nat
deriving DecidableEq, Repr

/-- Task labels have exactly the shape of note labels (`TaskLabel`). -/
abbrev TaskLabel := Label

/-- File-attachment metadata (`NoteFile`, structurally identical to
`TaskFile`). -/
structure NoteFile where
  id : String
  name : String
  size : Nat
  mimeType : String
  path : String
  uploadedAt : Nat
deriving DecidableEq, Repr

/-- Task files have exactly the shape of note files (`TaskFile`). -/
abbrev TaskFile := NoteFile

/-- Note record (`Note` in `types/note`). -/
structure Note where
  id : String
  title : String
  content : String
  userId : String
  labels : List Label
  files : List NoteFile
  createdAt : Nat
  updatedAt : Nat
deriving DecidableEq, Repr

/-- Task status (`TaskStatus = 'Todo' | 'In Progress' | 'Done'`). -/
inductive TaskStatus where
  | todo
  | inProgress
  | done
deriving DecidableEq, Repr

/-- Task record (`Task` in `types/task`). -/
structure Task where
  id : String
  title : String
  content : String
  userId : String
  status : TaskStatus
  dueDate : Nat
  labels : List TaskLabel
  files : List TaskFile
  createdAt : Nat
  updatedAt : Nat
deriving DecidableEq, Repr

/-- User record (`User` in `types/auth`). -/
structure User where
  id : String
  email : String
  password : String
  name : String
  createdAt : Nat
  updatedAt : Nat
deriving DecidableEq, Repr

/-- Outcome of the raw filesystem read performed by a `readX` function,
after `ensureDataFiles` has run.  `ok items` is a successful
`readFileSync` + `JSON.parse` of a JSON array; `missing` means the file
did not exist (so `ensureDataFiles` created it holding `[]`); `ioError`
is a `readFileSync` throw; `parseError` is a `JSON.parse` throw. -/
inductive ReadOutcome (α : Type) where
  | ok (items : List α)
  | missing
  | ioError
  | parseError

/-- Shared body of every `readX` function: the try/catch in the source
returns the parsed array on success and `[]` on any thrown error; a
missing file was just created containing `[]`. -/
def readCollection {α : Type} : ReadOutcome α → List α
  | .ok items => items
  | .missing => []
  | .ioError => []
  | .parseError => []

/-- Model of `readNotes` (note-storage). -/
def readNotes : ReadOutcome Note → List Note := readCollection

/-- Model of `readLabels` (note-storage). -/
def readLabels : ReadOutcome Label → List Label := readCollection

/-- Model of `readTasks` (task-storage). -/
def readTasks : ReadOutcome Task → List Task := readCollection

/-- Model of `readTaskLabels` (task-storage). -/
def readTaskLabels : ReadOutcome TaskLabel → List TaskLabel := readCollection

/-- Model of `readUsers` (user-storage). -/
def readUsers : ReadOutcome User → List User := readCollection

/-- Model of `findNoteById`: `notes.find(note => note.id === id) || null`. -/
def findNoteById (notes : List Note) (id : String) : Option Note :=
  notes.find? (fun n => decide (n.id = id))

/-- Model of `findNoteByIdAndUserId`:
`notes.find(note => note.id === id && note.userId === userId) || null`. -/
def findNoteByIdAndUserId (notes : List Note) (id userId : String) : Option Note :=
  notes.find? (fun n => decide (n.id = id ∧ n.userId = userId))

/-- Model of `findTaskById` (task-storage). -/
def findTaskById (tasks : List Task) (id : String) : Option Task :=
  tasks.find? (fun t => decide (t.id = id))

/-- Model of `findTaskByIdAndUserId` (task-storage). -/
def findTaskByIdAndUserId (tasks : List Task) (id userId : String) : Option Task :=
  tasks.find? (fun t => decide (t.id = id ∧ t.userId = userId))

/-- Model of one guarded `fs.unlinkSync` call: the source checks
`fs.existsSync(filePath)` first and catches (only logging) any unlink
error, so the path disappears from disk exactly when it was present and
the unlink does not fail. -/
def tryUnlink (disk : List String) (fails : String → Bool) (p : String) : List String :=
  if p ∈ disk then (if fails p then disk else disk.erase p) else disk

/-- Model of the `files.forEach(... unlinkSync ...)` loop that deletes a
record's attached files from the uploads directory. -/
def deleteFilesFromDisk (disk : List String) (fails : String → Bool)
    (paths : List String) : List String :=
  paths.foldl (fun d p => tryUnlink d fails p) disk

/-- Creation payload for a note: `Omit<Note, 'id' | 'createdAt' | 'updatedAt'>`. -/
structure NoteData where
  title : String
  content : String
  userId : String
  labels : List Label
  files : List NoteFile
deriving DecidableEq, Repr

/-- Model of `createNote`: spreads the payload, attaches a generated id
(here a parameter) and stamps both timestamps with `new Date()` (here
`now`), appends, persists, and returns the new record. -/
def createNote (notes : List Note) (d : NoteData) (newId : String) (now : Nat) :
    Note × List Note :=
  let newNote : Note :=
    { id := newId, title := d.title, content := d.content, userId := d.userId,
      labels := d.labels, files := d.files, createdAt := now, updatedAt := now }
  (newNote, notes ++ [newNote])

/-- Update payload for a note: `Partial<Omit<Note, 'id' | 'userId' | 'createdAt'>>`.
A field is `some v` when the caller's object carries that key.  The
`updatedAt` key is admitted by the TypeScript type but the source
overwrites it with `new Date()` after the spread, so it never reaches the
stored record. -/
structure NoteUpdate where
  title : Option String
  content : Option String
  labels : Option (List Label)
  files : Option (List NoteFile)
  updatedAt : Option Nat
deriving DecidableEq, Repr

/-- Model of `{ ...notes[noteIndex], ...updates, updatedAt: new Date().toISOString() }`. -/
def applyNoteUpdate (n : Note) (u : NoteUpdate) (now : Nat) : Note :=
  { id := n.id, title := u.title.getD n.title, content := u.content.getD n.content,
    userId := n.userId, labels := u.labels.getD n.labels, files := u.files.getD n.files,
    createdAt := n.createdAt, updatedAt := now }

/-- Replacement of the first element satisfying `p` by its image under
`f`, returning the new element and the rewritten list (`none` when
`findIndex` returns `-1`).  This is the shared `findIndex` + merge +
assign-at-index shape of `updateNote`, `updateTask` and the label
update. -/
def replaceFirst {α : Type} (p : α → Bool) (f : α → α) : List α → Option (α × List α)
  | [] => none
  | x :: xs =>
    if p x then some (f x, f x :: xs)
    else
      match replaceFirst p f xs with
      | none => none
      | some (r, xs') => some (r, x :: xs')

/-- Model of `updateNote`: `findIndex` on `(id, userId)` followed by the
spread-merge and an assignment at that index; `-1` becomes `none`. -/
def updateNote (notes : List Note) (id userId : String) (u : NoteUpdate) (now : Nat) :
    Option (Note × List Note) :=
  replaceFirst (fun m => decide (m.id = id ∧ m.userId = userId))
    (fun m => applyNoteUpdate m u now) notes

/-- Model of `deleteNote`: `findIndex` on `(id, userId)`; if absent the
source returns `false` without writing; otherwise it best-effort-unlinks
each attached file, splices the record out, persists and returns `true`.
Result components: the persisted collection, the uploads directory, the
boolean return value. -/
def deleteNote (notes : List Note) (disk : List String) (fails : String → Bool)
    (id userId : String) : List Note × List String × Bool :=
  match notes with
  | [] => ([], disk, false)
  | n :: rest =>
    if n.id = id ∧ n.userId = userId then
      (rest, deleteFilesFromDisk disk fails (n.files.map NoteFile.path), true)
    else
      let res := deleteNote rest disk fails id userId
      (n :: res.1, res.2.1, res.2.2)

/-- Creation payload for a label: `Omit<Label, 'id' | 'createdAt' | 'updatedAt'>`. -/
structure LabelData where
  name : String
  color : String
deriving DecidableEq, Repr

/-- Model of `createLabel`: throws (here `Except.error`, before any
write) when some existing label's name matches case-insensitively,
otherwise appends the stamped record and persists. -/
def createLabel (labels : List Label) (d : LabelData) (newId : String) (now : Nat) :
    Except String (Label × List Label) :=
  if labels.any (fun l => decide (lowerStr l.name = lowerStr d.name)) then
    Except.error "Label with this name already exists"
  else
    let newLabel : Label :=
      { id := newId, name := d.name, color := d.color, createdAt := now, updatedAt := now }
    Except.ok (newLabel, labels ++ [newLabel])

/-- Model of `createTaskLabel` (task-storage), identical except for the
error message. -/
def createTaskLabel (labels : List TaskLabel) (d : LabelData) (newId : String) (now : Nat) :
    Except String (TaskLabel × List TaskLabel) :=
  if labels.any (fun l => decide (lowerStr l.name = lowerStr d.name)) then
    Except.error "Task label with this name already exists"
  else
    let newLabel : TaskLabel :=
      { id := newId, name := d.name, color := d.color, createdAt := now, updatedAt := now }
    Except.ok (newLabel, labels ++ [newLabel])

/-- Update payload for a label: `Partial<Omit<Label, 'id' | 'createdAt'>>`
(the `updatedAt` key is overwritten after the spread, as for notes). -/
structure LabelUpdate where
  name : Option String
  color : Option String
  updatedAt : Option Nat
deriving DecidableEq, Repr

/-- Model of `{ ...labels[labelIndex], ...updates, updatedAt: now }`. -/
def applyLabelUpdate (l : Label) (u : LabelUpdate) (now : Nat) : Label :=
  { id := l.id, name := u.name.getD l.name, color := u.color.getD l.color,
    createdAt := l.createdAt, updatedAt := now }

/-- Model of the `if (updates.name) { ... find conflict ... }` guard in
`updateLabel`/`updateTaskLabel`.  JavaScript truthiness makes the guard
skip the conflict check both when the key is absent and when the new
name is the empty string. -/
def labelNameConflict (labels : List Label) (id : String) (u : LabelUpdate) : Bool :=
  match u.name with
  | some n =>
      !decide (n = "") &&
      labels.any (fun l => decide (¬ l.id = id) && decide (lowerStr l.name = lowerStr n))
  | none => false

/-- Replacement of the first label whose id matches, mirroring
`findIndex` + assignment; `none` when `findIndex` returns `-1`. -/
def updateLabelAt (labels : List Label) (id : String) (u : LabelUpdate) (now : Nat) :
    Option (Label × List Label) :=
  replaceFirst (fun l => decide (l.id = id))
    (fun l => applyLabelUpdate l u now) labels

/-- Model of `updateLabel` (note-storage): locate by id (`null` when
absent), then throw on a (truthy-guarded) case-insensitive name conflict
with any other label, else apply and persist. -/
def updateLabel (labels : List Label) (id : String) (u : LabelUpdate) (now : Nat) :
    Except String (Option (Label × List Label)) :=
  match updateLabelAt labels id u now with
  | none => Except.ok none
  | some res =>
    if labelNameConflict labels id u then
      Except.error "Label with this name already exists"
    else
      Except.ok (some res)

/-- Model of `updateTaskLabel` (task-storage), identical except for the
error message. -/
def updateTaskLabel (labels : List TaskLabel) (id : String) (u : LabelUpdate) (now : Nat) :
    Except String (Option (TaskLabel × List TaskLabel)) :=
  match updateLabelAt labels id u now with
  | none => Except.ok none
  | some res =>
    if labelNameConflict labels id u then
      Except.error "Task label with this name already exists"
    else
      Except.ok (some res)

/-- Model of `deleteLabel` (note-storage): if the label id is absent the
source returns `false` without writing; otherwise it rewrites EVERY note
via `notes.map`, filtering the label out of `labels` and stamping
`updatedAt` unconditionally, persists the notes, splices the label out of
the label collection (removal of the first id match), persists, returns
`true`.  Result components: the boolean return value, the persisted
label collection, the persisted note collection. -/
def deleteLabel (labels : List Label) (notes : List Note) (id : String) (now : Nat) :
    Bool × List Label × List Note :=
  if labels.any (fun l => decide (l.id = id)) then
    (true,
     labels.eraseP (fun l => decide (l.id = id)),
     notes.map (fun n =>
       { n with labels := n.labels.filter (fun l => !decide (l.id = id)),
                updatedAt := now }))
  else
    (false, labels, notes)

/-- Model of `deleteTaskLabel` (task-storage), the same cascade over the
task collection. -/
def deleteTaskLabel (labels : List TaskLabel) (tasks : List Task) (id : String) (now : Nat) :
    Bool × List TaskLabel × List Task :=
  if labels.any (fun l => decide (l.id = id)) then
    (true,
     labels.eraseP (fun l => decide (l.id = id)),
     tasks.map (fun t =>
       { t with labels := t.labels.filter (fun l => !decide (l.id = id)),
                updatedAt := now }))
  else
    (false, labels, tasks)

/-- Model of `removeFileFromNote`: locate the note by `(id, userId)`
(`null` when absent, nothing written); best-effort-unlink the disk file
of the first metadata entry matching `fileId` when there is one; filter
the entry out of `files`, stamp `updatedAt`, store the rewritten note at
its index, persist, return it.  Result components: the returned record
(or `none`), the persisted collection, the uploads directory. -/
def removeFileFromNote (notes : List Note) (disk : List String) (fails : String → Bool)
    (noteId userId fileId : String) (now : Nat) :
    Option Note × List Note × List String :=
  match notes with
  | [] => (none, [], disk)
  | n :: rest =>
    if n.id = noteId ∧ n.userId = userId then
      let disk' :=
        match n.files.find? (fun f => decide (f.id = fileId)) with
        | some f => tryUnlink disk fails f.path
        | none => disk
      let r : Note :=
        { n with files := n.files.filter (fun f => !decide (f.id = fileId)),
                 updatedAt := now }
      (some r, r :: rest, disk')
    else
      let res := removeFileFromNote rest disk fails noteId userId fileId now
      (res.1, n :: res.2.1, res.2.2)

/-- Creation payload for a task: `Omit<Task, 'id' | 'createdAt' | 'updatedAt'>`. -/
structure TaskData where
  title : String
  content : String
  userId : String
  status : TaskStatus
  dueDate : Nat
  labels : List TaskLabel
  files : List TaskFile
deriving DecidableEq, Repr

/-- Model of `createTask` (task-storage), the exact analogue of
`createNote`. -/
def createTask (tasks : List Task) (d : TaskData) (newId : String) (now : Nat) :
    Task × List Task :=
  let newTask : Task :=
    { id := newId, title := d.title, content := d.content, userId := d.userId,
      status := d.status, dueDate := d.dueDate, labels := d.labels, files := d.files,
      createdAt := now, updatedAt := now }
  (newTask, tasks ++ [newTask])

/-- Update payload for a task: `Partial<Omit<Task, 'id' | 'userId' | 'createdAt'>>`. -/
structure TaskUpdate where
  title : Option String
  content : Option String
  status : Option TaskStatus
  dueDate : Option Nat
  labels : Option (List TaskLabel)
  files : Option (List TaskFile)
  updatedAt : Option Nat
deriving DecidableEq, Repr

/-- Model of `{ ...tasks[taskIndex], ...updates, updatedAt: now }`. -/
def applyTaskUpdate (t : Task) (u : TaskUpdate) (now : Nat) : Task :=
  { id := t.id, title := u.title.getD t.title, content := u.content.getD t.content,
    userId := t.userId, status := u.status.getD t.status,
    dueDate := u.dueDate.getD t.dueDate, labels := u.labels.getD t.labels,
    files := u.files.getD t.files, createdAt := t.createdAt, updatedAt := now }

/-- Model of `updateTask` (task-storage), the exact analogue of
`updateNote`. -/
def updateTask (tasks : List Task) (id userId : String) (u : TaskUpdate) (now : Nat) :
    Option (Task × List Task) :=
  replaceFirst (fun m => decide (m.id = id ∧ m.userId = userId))
    (fun m => applyTaskUpdate m u now) tasks

/-- Model of `deleteTask` (task-storage), the exact analogue of
`deleteNote`. -/
def deleteTask (tasks : List Task) (disk : List String) (fails : String → Bool)
    (id userId : String) : List Task × List String × Bool :=
  match tasks with
  | [] => ([], disk, false)
  | t :: rest =>
    if t.id = id ∧ t.userId = userId then
      (rest, deleteFilesFromDisk disk fails (t.files.map NoteFile.path), true)
    else
      let res := deleteTask rest disk fails id userId
      (t :: res.1, res.2.1, res.2.2)

/-- Model of `deleteAllDoneTasks`: filter the user's `Done` tasks,
best-effort-unlink each of their attached files, persist the collection
filtered down to everything else, and return how many were matched.
Result components: the persisted collection, the uploads directory, the
returned count. -/
def deleteAllDoneTasks (tasks : List Task) (disk : List String) (fails : String → Bool)
    (userId : String) : List Task × List String × Nat :=
  let doneTasks := tasks.filter (fun t => decide (t.userId = userId ∧ t.status = TaskStatus.done))
  let disk' := doneTasks.foldl
    (fun d t => deleteFilesFromDisk d fails (t.files.map NoteFile.path)) disk
  let remainingTasks := tasks.filter
    (fun t => !decide (t.userId = userId ∧ t.status = TaskStatus.done))
  (remainingTasks, disk', doneTasks.length)

/-- Model of `removeFileFromTask` (task-storage), the exact analogue of
`removeFileFromNote`. -/
def removeFileFromTask (tasks : List Task) (disk : List String) (fails : String → Bool)
    (taskId userId fileId : String) (now : Nat) :
    Option Task × List Task × List String :=
  match tasks with
  | [] => (none, [], disk)
  | t :: rest =>
    if t.id = taskId ∧ t.userId = userId then
      let disk' :=
        match t.files.find? (fun f => decide (f.id = fileId)) with
        | some f => tryUnlink disk fails f.path
        | none => disk
      let r : Task :=
        { t with files := t.files.filter (fun f => !decide (f.id = fileId)),
                 updatedAt := now }
      (some r, r :: rest, disk')
    else
      let res := removeFileFromTask rest disk fails taskId userId fileId now
      (res.1, t :: res.2.1, res.2.2)

/-- Model of `findTaskLabelsByIds`:
`labels.filter(label => ids.includes(label.id))`. -/
def findTaskLabelsByIds (labels : List TaskLabel) (ids : List String) : List TaskLabel :=
  labels.filter (fun l => ids.contains l.id)

/-- Model of `generateDefaultDueDate`: `date.setDate(date.getDate() + 2)`
advances the instant by exactly two calendar days, i.e. 2 × 86 400 000 ms
for the fixed-offset clock of the model, and `toISOString` renders it. -/
def generateDefaultDueDate (now : Nat) : Nat :=
  now + 2 * 86400000

/-- Body of `POST /api/tasks`: `CreateTaskRequest` in `types/task`, with
`dueDate` carried as an instant (the source's ISO string). -/
structure CreateTaskRequest where
  title : String
  content : String
  status : Option TaskStatus
  dueDate : Option Nat
  labelIds : Option (List String)
deriving DecidableEq, Repr

/-- Model of the creation path of `POST /api/tasks` after authentication:
reject an empty title or content (400), resolve `labelIds` when present,
default `status` to `Todo` and `dueDate` to `generateDefaultDueDate()`
when omitted, and call `createTask`. -/
def postCreateTask (tasks : List Task) (taskLabels : List TaskLabel)
    (body : CreateTaskRequest) (userId newId : String) (now : Nat) :
    Option (Task × List Task) :=
  if body.title = "" ∨ body.content = "" then
    none
  else
    let labels :=
      match body.labelIds with
      | some ids => findTaskLabelsByIds taskLabels ids
      | none => []
    let status := body.status.getD TaskStatus.todo
    let dueDate :=
      match body.dueDate with
      | some d => d
      | none => generateDefaultDueDate now
    some (createTask tasks
      { title := body.title, content := body.content, userId := userId,
        status := status, dueDate := dueDate, labels := labels, files := [] }
      newId now)

/-- Case-insensitive pairwise distinctness of label names — the
uniqueness invariant of a label family, as distinctness of the list of
lowercased names. -/
def distinctNamesCI (labels : List Label) : Prop :=
  (labels.map (fun l => lowerStr l.name)).Nodup

/-- Fixture: a label named "Work". -/
def wLabel : Label :=
  { id := "label_a", name := "Work", color := "#3b82f6", createdAt := 0, updatedAt := 0 }

/-- Fixture: a label named "Home". -/
def xLabel : Label :=
  { id := "label_x", name := "Home", color := "#000000", createdAt := 0, updatedAt := 0 }

/-- Fixture: a label whose name is the empty string (creatable, since
`createLabel` only rejects duplicates). -/
def eLabel : Label :=
  { id := "label_e", name := "", color := "#ffffff", createdAt := 0, updatedAt := 0 }

/-- Fixture: one attached note file. -/
def sampleNoteFile : NoteFile :=
  { id := "file_1", name := "a.txt", size := 3, mimeType := "text/plain",
    path := "file_1.txt", uploadedAt := 0 }

/-- Fixture: a note of user `u1` with no labels and no files. -/
def plainNote : Note :=
  { id := "note_1", title := "standup", content := "notes", userId := "u1",
    labels := [], files := [], createdAt := 0, updatedAt := 0 }

/-- Fixture: a note of user `u1` carrying `wLabel` and one file. -/
def taggedNote : Note :=
  { id := "note_2", title := "tagged", content := "body", userId := "u1",
    labels := [wLabel], files := [sampleNoteFile], createdAt := 0, updatedAt := 0 }

/-- Fixture: one attached task file. -/
def sampleTaskFile : TaskFile :=
  { id := "task_file_1", name := "b.txt", size := 5, mimeType := "text/plain",
    path := "task_file_1.txt", uploadedAt := 0 }

/-- Fixture: a `Todo` task of user `u1`. -/
def todoTask : Task :=
  { id := "task_1", title := "t1", content := "c1", userId := "u1",
    status := TaskStatus.todo, dueDate := 10, labels := [], files := [],
    createdAt := 0, updatedAt := 0 }

/-- Fixture: an `In Progress` task of user `u1`. -/
def progTask : Task :=
  { id := "task_2", title := "t2", content := "c2", userId := "u1",
    status := TaskStatus.inProgress, dueDate := 10, labels := [], files := [],
    createdAt := 0, updatedAt := 0 }

/-- Fixture: a `Done` task of user `u1` with one attached file. -/
def doneTask1 : Task :=
  { id := "task_3", title := "t3", content := "c3", userId := "u1",
    status := TaskStatus.done, dueDate := 10, labels := [], files := [sampleTaskFile],
    createdAt := 0, updatedAt := 0 }

/-- Fixture: a second `Done` task of user `u1`. -/
def doneTask2 : Task :=
  { id := "task_4", title := "t4", content := "c4", userId := "u1",
    status := TaskStatus.done, dueDate := 10, labels := [], files := [],
    createdAt := 0, updatedAt := 0 }

/-- Fixture: a `Done` task belonging to a different user `u2`. -/
def otherUserTask : Task :=
  { id := "task_5", title := "t5", content := "c5", userId := "u2",
    status := TaskStatus.done, dueDate := 10, labels := [], files := [],
    createdAt := 0, updatedAt := 0 }

/-- Fixture: the spec scenario `{Todo, In Progress, Done, Done}` for `u1`
plus a `Done` task of another user. -/
def tasks0 : List Task := [todoTask, progTask, doneTask1, doneTask2, otherUserTask]

/-- Fixture: a task-creation body omitting `status`, `dueDate`, `labelIds`. -/
def sampleBody : CreateTaskRequest :=
  { title := "write docs", content := "body", status := none, dueDate := none,
    labelIds := none }

/-- Fixture: a note-update payload that also tries to smuggle in an
`updatedAt` value. -/
def stampUpd : NoteUpdate :=
  { title := some "edited", content := none, labels := none, files := none,
    updatedAt := some 999 }

/-- Fixture: a task-update payload moving the task to `Done`. -/
def taskStampUpd : TaskUpdate :=
  { title := none, content := none, status := some TaskStatus.done, dueDate := none,
    labels := none, files := none, updatedAt := some 999 }

/-- Fixture: a rename to the empty string. -/
def emptyRename : LabelUpdate := { name := some "", color := none, updatedAt := none }

/-- Fixture: a rename to "wORK", case-insensitively equal to "Work". -/
def renameToWork : LabelUpdate := { name := some "wORK", color := none, updatedAt := none }

/-- Fixture: a creation payload whose name clashes with `wLabel`
case-insensitively. -/
def dupLabelData : LabelData := { name := "WORK", color := "#111111" }

/-- Fixture: a note-creation payload. -/
def sampleNoteData : NoteData :=
  { title := "t", content := "c", userId := "u1", labels := [], files := [] }

/-- Fixture: a task-creation payload. -/
def sampleTaskData : TaskData :=
  { title := "t", content := "c", userId := "u1", status := TaskStatus.todo,
    dueDate := 99, labels := [], files := [] }

/-! Generic list helpers shared by several claims. -/

theorem find?_first_unique {α : Type} {p : α → Bool} {l : List α} {a : α}
    (ha : a ∈ l) (hp : p a = true) (huniq : ∀ b ∈ l, p b = true → b = a) :
    l.find? p = some a := by
  induction l with
  | nil => cases ha
  | cons x xs ih =>
    by_cases hx : p x = true
    · have hxa : x = a := huniq x (List.mem_cons_self x xs) hx
      rw [List.find?_cons_of_pos _ hx, hxa]
    · have hax : a ∈ xs := by
        rcases List.mem_cons.mp ha with h | h
        · exact absurd (h ▸ hp) hx
        · exact h
      rw [List.find?_cons_of_neg _ hx]
      exact ih hax (fun b hb => huniq b (List.mem_cons_of_mem x hb))

theorem find?_decomp {α : Type} {p : α → Bool} {l : List α} {a : α}
    (h : l.find? p = some a) :
    ∃ pre post, l = pre ++ a :: post ∧ (∀ b ∈ pre, p b = false) ∧ p a = true := by
  induction l with
  | nil => cases h
  | cons x xs ih =>
    by_cases hx : p x = true
    · rw [List.find?_cons_of_pos _ hx, Option.some.injEq] at h
      subst h
      refine ⟨[], xs, rfl, ?_, hx⟩
      intro b hb
      exact absurd hb (List.not_mem_nil b)
    · rw [List.find?_cons_of_neg _ hx] at h
      obtain ⟨pre, post, hl, hpre, hp⟩ := ih h
      refine ⟨x :: pre, post, by rw [hl]; rfl, ?_, hp⟩
      intro b hb
      rcases List.mem_cons.mp hb with rfl | hb
      · exact Bool.eq_false_iff.mpr hx
      · exact hpre b hb

theorem replaceFirst_of_find? {α : Type} {p : α → Bool} {f : α → α} {l : List α} {a : α}
    (h : l.find? p = some a) :
    ∃ l', replaceFirst p f l = some (f a, l') := by
  induction l with
  | nil => cases h
  | cons x xs ih =>
    by_cases hx : p x = true
    · rw [List.find?_cons_of_pos _ hx, Option.some.injEq] at h
      subst h
      exact ⟨f x :: xs, by simp [replaceFirst, hx]⟩
    · rw [List.find?_cons_of_neg _ hx] at h
      obtain ⟨l', hl'⟩ := ih h
      exact ⟨x :: l', by simp [replaceFirst, hx, hl']⟩

theorem replaceFirst_some_decomp {α : Type} {p : α → Bool} {f : α → α} {l : List α}
    {r : α} {l' : List α} (h : replaceFirst p f l = some (r, l')) :
    ∃ pre a post, l = pre ++ a :: post ∧ (∀ b ∈ pre, p b = false) ∧ p a = true ∧
      r = f a ∧ l' = pre ++ f a :: post := by
  induction l generalizing l' with
  | nil => cases h
  | cons x xs ih =>
    by_cases hx : p x = true
    · rw [replaceFirst, if_pos hx, Option.some.injEq, Prod.mk.injEq] at h
      obtain ⟨h1, h2⟩ := h
      subst h1
      subst h2
      refine ⟨[], x, xs, rfl, ?_, hx, rfl, rfl⟩
      intro b hb
      exact absurd hb (List.not_mem_nil b)
    · rw [replaceFirst, if_neg hx] at h
      cases hrec : replaceFirst p f xs with
      | none => rw [hrec] at h; cases h
      | some res =>
        rw [hrec] at h
        obtain ⟨r', xs'⟩ := res
        simp only [Option.some.injEq, Prod.mk.injEq] at h
        obtain ⟨h1, h2⟩ := h
        subst h1
        subst h2
        obtain ⟨pre, a, post, hxs, hpre, hp, hr, hxs'⟩ := ih hrec
        refine ⟨x :: pre, a, post, by rw [hxs]; rfl, ?_, hp, hr, by rw [hxs']; rfl⟩
        intro b hb
        rcases List.mem_cons.mp hb with rfl | hb
        · exact Bool.eq_false_iff.mpr hx
        · exact hpre b hb

/-- C6: for every collection (notes, tasks, labels, task-labels, users),
a missing, unreadable, or unparseable backing file makes `readAll` return
the empty sequence; the functions are total, so no error ever reaches the
caller, and the three failure outcomes are indistinguishable from an
empty collection. -/
theorem read_failure_degrades_to_empty :
    readNotes ReadOutcome.missing = [] ∧ readNotes ReadOutcome.ioError = [] ∧
    readNotes ReadOutcome.parseError = [] ∧
    readTasks ReadOutcome.missing = [] ∧ readTasks ReadOutcome.ioError = [] ∧
    readTasks ReadOutcome.parseError = [] ∧
    readLabels ReadOutcome.missing = [] ∧ readLabels ReadOutcome.ioError = [] ∧
    readLabels ReadOutcome.parseError = [] ∧
    readTaskLabels ReadOutcome.missing = [] ∧ readTaskLabels ReadOutcome.ioError = [] ∧
    readTaskLabels ReadOutcome.parseError = [] ∧
    readUsers ReadOutcome.missing = [] ∧ readUsers ReadOutcome.ioError = [] ∧
    readUsers ReadOutcome.parseError = [] :=
  ⟨rfl, rfl, rfl, rfl, rfl, rfl, rfl, rfl, rfl, rfl, rfl, rfl, rfl, rfl, rfl⟩

/-- C4: for a record present in the collection (ids being unique) and any
userId other than its owner, `findByIdAndUser` returns null for both
Notes and Tasks, while `findById` on the same state returns the record. -/
theorem findByIdAndUser_enforces_ownership
    (notes : List Note) (tasks : List Task) (n : Note) (t : Task) (uid vid : String)
    (hn : n ∈ notes) (hnids : (notes.map Note.id).Nodup) (hu : uid ≠ n.userId)
    (ht : t ∈ tasks) (htids : (tasks.map Task.id).Nodup) (hv : vid ≠ t.userId) :
    findNoteByIdAndUserId notes n.id uid = none ∧
    findNoteById notes n.id = some n ∧
    findTaskByIdAndUserId tasks t.id vid = none ∧
    findTaskById tasks t.id = some t := by
  refine ⟨?_, ?_, ?_, ?_⟩
  · rw [findNoteByIdAndUserId, List.find?_eq_none]
    intro m hm hpm
    rw [decide_eq_true_eq] at hpm
    have hmn : m = n := List.inj_on_of_nodup_map hnids hm hn hpm.1
    exact hu (hmn ▸ hpm.2).symm
  · apply find?_first_unique hn (by simp)
    intro b hb hpb
    rw [decide_eq_true_eq] at hpb
    exact List.inj_on_of_nodup_map hnids hb hn hpb
  · rw [findTaskByIdAndUserId, List.find?_eq_none]
    intro m hm hpm
    rw [decide_eq_true_eq] at hpm
    have hmt : m = t := List.inj_on_of_nodup_map htids hm ht hpm.1
    exact hv (hmt ▸ hpm.2).symm
  · apply find?_first_unique ht (by simp)
    intro b hb hpb
    rw [decide_eq_true_eq] at hpb
    exact List.inj_on_of_nodup_map htids hb ht hpb

/-- C7: `create` followed by `findById` on the persisted collection
returns exactly the created record (when the generated id is fresh, which
is what the collision-resistant generator provides), and its `createdAt`
and `updatedAt` are both set to the creation instant, hence equal. -/
theorem create_then_findById_roundtrip
    (notes : List Note) (d : NoteData) (newId : String) (now : Nat)
    (tasks : List Task) (td : TaskData) (newTid : String) (tnow : Nat)
    (hfresh : ∀ n ∈ notes, n.id ≠ newId) (htfresh : ∀ t ∈ tasks, t.id ≠ newTid) :
    findNoteById (createNote notes d newId now).2 (createNote notes d newId now).1.id =
      some (createNote notes d newId now).1 ∧
    (createNote notes d newId now).1.createdAt = now ∧
    (createNote notes d newId now).1.updatedAt = now ∧
    findTaskById (createTask tasks td newTid tnow).2 (createTask tasks td newTid tnow).1.id =
      some (createTask tasks td newTid tnow).1 ∧
    (createTask tasks td newTid tnow).1.createdAt = tnow ∧
    (createTask tasks td newTid tnow).1.updatedAt = tnow := by
  refine ⟨?_, rfl, rfl, ?_, rfl, rfl⟩
  · apply find?_first_unique
    · exact List.mem_append_right notes (List.mem_singleton.mpr rfl)
    · simp [createNote]
    · intro b hb hpb
      rw [decide_eq_true_eq] at hpb
      rcases List.mem_append.mp hb with hb | hb
      · exact absurd hpb (hfresh b hb)
      · exact List.mem_singleton.mp hb
  · apply find?_first_unique
    · exact List.mem_append_right tasks (List.mem_singleton.mpr rfl)
    · simp [createTask]
    · intro b hb hpb
      rw [decide_eq_true_eq] at hpb
      rcases List.mem_append.mp hb with hb | hb
      · exact absurd hpb (htfresh b hb)
      · exact List.mem_singleton.mp hb

/-- C3: when `update` finds a record by `(id, userId)` (and the clock has
not gone backwards since the record was last stamped), the returned Note
or Task keeps `id`, `userId` and `createdAt` of the pre-existing record
and has `updatedAt` set to the current instant, hence `≥` the previous
`updatedAt` — whatever partial payload was supplied, including one that
tries to set `updatedAt` itself. -/
theorem update_preserves_identity_fields
    (notes : List Note) (tasks : List Task) (id userId tid tuserId : String)
    (u : NoteUpdate) (tu : TaskUpdate) (now tnow : Nat) (n : Note) (t : Task)
    (hn : findNoteByIdAndUserId notes id userId = some n) (hclock : n.updatedAt ≤ now)
    (ht : findTaskByIdAndUserId tasks tid tuserId = some t) (htclock : t.updatedAt ≤ tnow) :
    (∃ r notes', updateNote notes id userId u now = some (r, notes') ∧
      r.id = n.id ∧ r.userId = n.userId ∧ r.createdAt = n.createdAt ∧
      r.updatedAt = now ∧ n.updatedAt ≤ r.updatedAt) ∧
    (∃ r tasks', updateTask tasks tid tuserId tu tnow = some (r, tasks') ∧
      r.id = t.id ∧ r.userId = t.userId ∧ r.createdAt = t.createdAt ∧
      r.updatedAt = tnow ∧ t.updatedAt ≤ r.updatedAt) := by
  constructor
  · obtain ⟨notes', hrep⟩ :=
      @replaceFirst_of_find? _ _ (fun m => applyNoteUpdate m u now) _ _ hn
    exact ⟨applyNoteUpdate n u now, notes',
      hrep, rfl, rfl, rfl, rfl, hclock⟩
  · obtain ⟨tasks', hrep⟩ :=
      @replaceFirst_of_find? _ _ (fun m => applyTaskUpdate m tu tnow) _ _ ht
    exact ⟨applyTaskUpdate t tu tnow, tasks',
      hrep, rfl, rfl, rfl, rfl, htclock⟩

/-- C5: `deleteAllDone` removes exactly the caller's `Done` tasks,
returns their count, and keeps every other task (other users' tasks and
the caller's `Todo` / `In Progress` tasks) in the persisted collection. -/
theorem deleteAllDone_removes_exactly_done
    (tasks : List Task) (disk : List String) (fails : String → Bool) (userId : String) :
    (deleteAllDoneTasks tasks disk fails userId).2.2 =
      (tasks.filter (fun t => decide (t.userId = userId ∧ t.status = TaskStatus.done))).length ∧
    (deleteAllDoneTasks tasks disk fails userId).1 =
      tasks.filter (fun t => !decide (t.userId = userId ∧ t.status = TaskStatus.done)) ∧
    (∀ t ∈ tasks, ¬(t.userId = userId ∧ t.status = TaskStatus.done) →
      t ∈ (deleteAllDoneTasks tasks disk fails userId).1) ∧
    (∀ t ∈ (deleteAllDoneTasks tasks disk fails userId).1,
      ¬(t.userId = userId ∧ t.status = TaskStatus.done)) := by
  refine ⟨rfl, rfl, ?_, ?_⟩
  · intro t ht hnot
    exact List.mem_filter.mpr ⟨ht, by rw [decide_eq_false hnot]; rfl⟩
  · intro t ht hcon
    have h2 := (List.mem_filter.mp ht).2
    rw [decide_eq_true hcon] at h2
    simp at h2

theorem deleteNote_no_match (notes : List Note) (disk : List String)
    (fails : String → Bool) (id userId : String)
    (h : ∀ m ∈ notes, ¬(m.id = id ∧ m.userId = userId)) :
    deleteNote notes disk fails id userId = (notes, disk, false) := by
  induction notes with
  | nil => rfl
  | cons n rest ih =>
    have hn := h n (List.mem_cons_self n rest)
    have ih' := ih (fun m hm => h m (List.mem_cons_of_mem n hm))
    simp [deleteNote, hn, ih']

theorem deleteNote_found (notes : List Note) (disk : List String)
    (fails : String → Bool) (id userId : String)
    (h : ∃ m ∈ notes, m.id = id ∧ m.userId = userId) :
    (deleteNote notes disk fails id userId).2.2 = true ∧
    (deleteNote notes disk fails id userId).1 =
      notes.eraseP (fun m => decide (m.id = id ∧ m.userId = userId)) := by
  induction notes with
  | nil => obtain ⟨m, hm, _⟩ := h; cases hm
  | cons n rest ih =>
    by_cases hn : n.id = id ∧ n.userId = userId
    · refine ⟨by simp [deleteNote, hn], ?_⟩
      rw [List.eraseP_cons_of_pos (by simpa using hn)]
      simp [deleteNote, hn]
    · have h' : ∃ m ∈ rest, m.id = id ∧ m.userId = userId := by
        obtain ⟨m, hm, hp⟩ := h
        rcases List.mem_cons.mp hm with rfl | hm
        · exact absurd hp hn
        · exact ⟨m, hm, hp⟩
      obtain ⟨ih1, ih2⟩ := ih h'
      refine ⟨by simp [deleteNote, hn, ih1], ?_⟩
      rw [List.eraseP_cons_of_neg (by simpa using hn)]
      simp [deleteNote, hn, ih2]

theorem deleteTask_no_match (tasks : List Task) (disk : List String)
    (fails : String → Bool) (id userId : String)
    (h : ∀ m ∈ tasks, ¬(m.id = id ∧ m.userId = userId)) :
    deleteTask tasks disk fails id userId = (tasks, disk, false) := by
  induction tasks with
  | nil => rfl
  | cons t rest ih =>
    have ht := h t (List.mem_cons_self t rest)
    have ih' := ih (fun m hm => h m (List.mem_cons_of_mem t hm))
    simp [deleteTask, ht, ih']

theorem deleteTask_found (tasks : List Task) (disk : List String)
    (fails : String → Bool) (id userId : String)
    (h : ∃ m ∈ tasks, m.id = id ∧ m.userId = userId) :
    (deleteTask tasks disk fails id userId).2.2 = true ∧
    (deleteTask tasks disk fails id userId).1 =
      tasks.eraseP (fun m => decide (m.id = id ∧ m.userId = userId)) := by
  induction tasks with
  | nil => obtain ⟨m, hm, _⟩ := h; cases hm
  | cons t rest ih =>
    by_cases ht : t.id = id ∧ t.userId = userId
    · refine ⟨by simp [deleteTask, ht], ?_⟩
      rw [List.eraseP_cons_of_pos (by simpa using ht)]
      simp [deleteTask, ht]
    · have h' : ∃ m ∈ rest, m.id = id ∧ m.userId = userId := by
        obtain ⟨m, hm, hp⟩ := h
        rcases List.mem_cons.mp hm with rfl | hm
        · exact absurd hp ht
        · exact ⟨m, hm, hp⟩
      obtain ⟨ih1, ih2⟩ := ih h'
      refine ⟨by simp [deleteTask, ht, ih1], ?_⟩
      rw [List.eraseP_cons_of_neg (by simpa using ht)]
      simp [deleteTask, ht, ih2]

/-- C9: `delete` returns false and changes nothing when no record matches
`(id, userId)`; when one matches, the first matching record is removed
from the persisted collection and true is returned — and since the
right-hand sides below do not mention the uploads directory or the
unlink-failure oracle, a failing disk deletion can affect neither the
removal nor the returned boolean.  Both Note and Task covered. -/
theorem delete_removes_record_best_effort
    (notes : List Note) (tasks : List Task) (disk tdisk : List String)
    (fails tfails : String → Bool) (id userId tid tuserId : String) :
    ((∀ m ∈ notes, ¬(m.id = id ∧ m.userId = userId)) →
      deleteNote notes disk fails id userId = (notes, disk, false)) ∧
    ((∃ m ∈ notes, m.id = id ∧ m.userId = userId) →
      (deleteNote notes disk fails id userId).2.2 = true ∧
      (deleteNote notes disk fails id userId).1 =
        notes.eraseP (fun m => decide (m.id = id ∧ m.userId = userId))) ∧
    ((∀ m ∈ tasks, ¬(m.id = tid ∧ m.userId = tuserId)) →
      deleteTask tasks tdisk tfails tid tuserId = (tasks, tdisk, false)) ∧
    ((∃ m ∈ tasks, m.id = tid ∧ m.userId = tuserId) →
      (deleteTask tasks tdisk tfails tid tuserId).2.2 = true ∧
      (deleteTask tasks tdisk tfails tid tuserId).1 =
        tasks.eraseP (fun m => decide (m.id = tid ∧ m.userId = tuserId))) :=
  ⟨deleteNote_no_match notes disk fails id userId,
   deleteNote_found notes disk fails id userId,
   deleteTask_no_match tasks tdisk tfails tid tuserId,
   deleteTask_found tasks tdisk tfails tid tuserId⟩

/-- C8: a task-creation request that omits `dueDate` (with non-empty
title and content, so the handler reaches creation) produces a task whose
`dueDate` is the default — the creation instant plus two days, i.e.
48 hours. -/
theorem omitted_dueDate_defaults_to_two_days
    (tasks : List Task) (taskLabels : List TaskLabel) (body : CreateTaskRequest)
    (userId newId : String) (now : Nat)
    (hdue : body.dueDate = none) (htitle : ¬ body.title = "")
    (hcontent : ¬ body.content = "") :
    ∃ t tasks', postCreateTask tasks taskLabels body userId newId now = some (t, tasks') ∧
      t.dueDate = generateDefaultDueDate now ∧ t.dueDate = now + 2 * 86400000 ∧
      t.createdAt = now := by
  have hcond : ¬(body.title = "" ∨ body.content = "") := fun hor => hor.elim htitle hcontent
  unfold postCreateTask
  rw [if_neg hcond, hdue]
  exact ⟨_, _, rfl, rfl, rfl, rfl⟩

theorem removeFileFromNote_found (pre post : List Note) (n : Note) (disk : List String)
    (fails : String → Bool) (noteId userId fileId : String) (now : Nat)
    (hpre : ∀ m ∈ pre, ¬(m.id = noteId ∧ m.userId = userId))
    (hn : n.id = noteId ∧ n.userId = userId) :
    removeFileFromNote (pre ++ n :: post) disk fails noteId userId fileId now =
      (some { n with files := n.files.filter (fun f => !decide (f.id = fileId)),
                     updatedAt := now },
       pre ++ ({ n with files := n.files.filter (fun f => !decide (f.id = fileId)),
                        updatedAt := now } : Note) :: post,
       match n.files.find? (fun f => decide (f.id = fileId)) with
       | some f => tryUnlink disk fails f.path
       | none => disk) := by
  induction pre with
  | nil => simp [removeFileFromNote, hn]
  | cons x rest ih =>
    have hx := hpre x (List.mem_cons_self x rest)
    have ih' := ih (fun m hm => hpre m (List.mem_cons_of_mem x hm))
    simp only [List.cons_append, removeFileFromNote, if_neg hx, List.append_eq, ih']

theorem removeFileFromTask_found (pre post : List Task) (t : Task) (disk : List String)
    (fails : String → Bool) (taskId userId fileId : String) (now : Nat)
    (hpre : ∀ m ∈ pre, ¬(m.id = taskId ∧ m.userId = userId))
    (ht : t.id = taskId ∧ t.userId = userId) :
    removeFileFromTask (pre ++ t :: post) disk fails taskId userId fileId now =
      (some { t with files := t.files.filter (fun f => !decide (f.id = fileId)),
                     updatedAt := now },
       pre ++ ({ t with files := t.files.filter (fun f => !decide (f.id = fileId)),
                        updatedAt := now } : Task) :: post,
       match t.files.find? (fun f => decide (f.id = fileId)) with
       | some f => tryUnlink disk fails f.path
       | none => disk) := by
  induction pre with
  | nil => simp [removeFileFromTask, ht]
  | cons x rest ih =>
    have hx := hpre x (List.mem_cons_self x rest)
    have ih' := ih (fun m hm => hpre m (List.mem_cons_of_mem x hm))
    simp only [List.cons_append, removeFileFromTask, if_neg hx, List.append_eq, ih']

/-- C10: when the record exists but carries no file with the given
fileId, `removeFileFromNote` / `removeFileFromTask` does not report
not-found: it returns the record with its files array unchanged but its
`updatedAt` re-stamped, persists the collection with that re-stamped
record in place, and leaves the uploads directory untouched. -/
theorem removeFile_unknown_fileId_restamps
    (notes : List Note) (tasks : List Task) (disk tdisk : List String)
    (fails tfails : String → Bool) (noteId nUserId fileId taskId tUserId tFileId : String)
    (now tnow : Nat) (n : Note) (t : Task)
    (hn : findNoteByIdAndUserId notes noteId nUserId = some n)
    (hnf : ∀ f ∈ n.files, f.id ≠ fileId)
    (ht : findTaskByIdAndUserId tasks taskId tUserId = some t)
    (htf : ∀ f ∈ t.files, f.id ≠ tFileId) :
    (∃ pre post, notes = pre ++ n :: post ∧
      removeFileFromNote notes disk fails noteId nUserId fileId now =
        (some { n with updatedAt := now },
         pre ++ ({ n with updatedAt := now } : Note) :: post, disk)) ∧
    (∃ pre post, tasks = pre ++ t :: post ∧
      removeFileFromTask tasks tdisk tfails taskId tUserId tFileId tnow =
        (some { t with updatedAt := tnow },
         pre ++ ({ t with updatedAt := tnow } : Task) :: post, tdisk)) := by
  constructor
  · obtain ⟨pre, post, hdec, hprev, hp⟩ := find?_decomp hn
    rw [decide_eq_true_eq] at hp
    have hfilter : n.files.filter (fun f => !decide (f.id = fileId)) = n.files :=
      List.filter_eq_self.mpr (fun f hf => by rw [decide_eq_false (hnf f hf)]; rfl)
    have hfind : n.files.find? (fun f => decide (f.id = fileId)) = none :=
      List.find?_eq_none.mpr (fun f hf => by simp [hnf f hf])
    have hmain := removeFileFromNote_found pre post n disk fails noteId nUserId fileId now
      (fun m hm => of_decide_eq_false (hprev m hm)) hp
    rw [hfilter, hfind] at hmain
    exact ⟨pre, post, hdec, by rw [hdec]; exact hmain⟩
  · obtain ⟨pre, post, hdec, hprev, hp⟩ := find?_decomp ht
    rw [decide_eq_true_eq] at hp
    have hfilter : t.files.filter (fun f => !decide (f.id = tFileId)) = t.files :=
      List.filter_eq_self.mpr (fun f hf => by rw [decide_eq_false (htf f hf)]; rfl)
    have hfind : t.files.find? (fun f => decide (f.id = tFileId)) = none :=
      List.find?_eq_none.mpr (fun f hf => by simp [htf f hf])
    have hmain := removeFileFromTask_found pre post t tdisk tfails taskId tUserId tFileId tnow
      (fun m hm => of_decide_eq_false (hprev m hm)) hp
    rw [hfilter, hfind] at hmain
    exact ⟨pre, post, hdec, by rw [hdec]; exact hmain⟩

theorem eraseP_label_id_complete (labels : List Label) (id : String)
    (hids : (labels.map Label.id).Nodup) :
    ∀ l ∈ labels.eraseP (fun l => decide (l.id = id)), l.id ≠ id := by
  induction labels with
  | nil => intro l hl; cases hl
  | cons x rest ih =>
    rw [List.map_cons, List.nodup_cons] at hids
    by_cases hx : x.id = id
    · rw [List.eraseP_cons_of_pos (by simpa using hx)]
      intro l hl hlid
      exact hids.1 (List.mem_map.mpr ⟨l, hl, by rw [hlid, hx]⟩)
    · rw [List.eraseP_cons_of_neg (by simpa using hx)]
      intro l hl
      rcases List.mem_cons.mp hl with rfl | hl
      · exact hx
      · exact ih hids.2 l hl

/-- C1 (amended): deleting an existing label (ids unique) returns true,
removes the label from its collection, and rewrites EVERY parent: each
parent's embedded `labels` array is filtered of the deleted id and each
parent's `updatedAt` is re-stamped to the deletion instant — including
parents that never referenced the label, whose `labels` array is merely
unchanged by the filter. -/
theorem label_delete_cascade_restamps_all_parents
    (labels : List Label) (notes : List Note) (tlabels : List TaskLabel) (tasks : List Task)
    (id tid : String) (now tnow : Nat)
    (h : ∃ l ∈ labels, l.id = id) (hids : (labels.map Label.id).Nodup)
    (ht : ∃ l ∈ tlabels, l.id = tid) (htids : (tlabels.map Label.id).Nodup) :
    (deleteLabel labels notes id now).1 = true ∧
    (∀ l ∈ (deleteLabel labels notes id now).2.1, l.id ≠ id) ∧
    (deleteLabel labels notes id now).2.2 =
      notes.map (fun n =>
        { n with labels := n.labels.filter (fun l => !decide (l.id = id)),
                 updatedAt := now }) ∧
    (deleteTaskLabel tlabels tasks tid tnow).1 = true ∧
    (∀ l ∈ (deleteTaskLabel tlabels tasks tid tnow).2.1, l.id ≠ tid) ∧
    (deleteTaskLabel tlabels tasks tid tnow).2.2 =
      tasks.map (fun t =>
        { t with labels := t.labels.filter (fun l => !decide (l.id = tid)),
                 updatedAt := tnow }) := by
  obtain ⟨l0, hl0, hl0id⟩ := h
  obtain ⟨m0, hm0, hm0id⟩ := ht
  have hany : labels.any (fun l => decide (l.id = id)) = true :=
    List.any_eq_true.mpr ⟨l0, hl0, by simpa using hl0id⟩
  have htany : tlabels.any (fun l => decide (l.id = tid)) = true :=
    List.any_eq_true.mpr ⟨m0, hm0, by simpa using hm0id⟩
  refine ⟨?_, ?_, ?_, ?_, ?_, ?_⟩
  · simp [deleteLabel, hany]
  · intro l hl
    rw [deleteLabel, if_pos (by simpa using hany)] at hl
    exact eraseP_label_id_complete labels id hids l hl
  · rw [deleteLabel, if_pos (by simpa using hany)]
  · simp [deleteTaskLabel, htany]
  · intro l hl
    rw [deleteTaskLabel, if_pos (by simpa using htany)] at hl
    exact eraseP_label_id_complete tlabels tid htids l hl
  · rw [deleteTaskLabel, if_pos (by simpa using htany)]

/-- C1 counterexample: deleting the existing label `label_a` from a
collection whose only note does not reference it still re-stamps that
note's `updatedAt` (from 0 to 5), so the untouched parent is NOT left
entirely unchanged, contrary to the claim. -/
theorem label_delete_frame_counterexample :
    plainNote.labels = [] ∧ plainNote.updatedAt = 0 ∧
    (deleteLabel [wLabel] [plainNote] "label_a" 5).1 = true ∧
    (deleteLabel [wLabel] [plainNote] "label_a" 5).2.2 ≠ [plainNote] ∧
    (deleteLabel [wLabel] [plainNote] "label_a" 5).2.2.map Note.updatedAt = [5] := by
  refine ⟨rfl, rfl, ?_, ?_, ?_⟩ <;> decide

theorem replaceFirst_isSome {α : Type} {p : α → Bool} {f : α → α} {l : List α}
    (h : ∃ a ∈ l, p a = true) : ∃ r l', replaceFirst p f l = some (r, l') := by
  induction l with
  | nil => obtain ⟨a, ha, _⟩ := h; cases ha
  | cons x xs ih =>
    by_cases hx : p x = true
    · exact ⟨f x, f x :: xs, by simp [replaceFirst, hx]⟩
    · obtain ⟨a, ha, hp⟩ := h
      have ha' : a ∈ xs := by
        rcases List.mem_cons.mp ha with rfl | h'
        · exact absurd hp hx
        · exact h'
      obtain ⟨r, xs', hres⟩ := ih ⟨a, ha', hp⟩
      exact ⟨r, x :: xs', by simp [replaceFirst, hx, hres]⟩

theorem nodup_map_middle_ne {α β : Type} (f : α → β) (pre post : List α) (a : α)
    (h : ((pre ++ a :: post).map f).Nodup) : ∀ b ∈ pre ++ post, f b ≠ f a := by
  rw [List.map_append, List.map_cons, List.nodup_middle, List.nodup_cons] at h
  intro b hb hfb
  apply h.1
  rw [← List.map_append]
  exact List.mem_map.mpr ⟨b, hb, hfb⟩

theorem distinctNamesCI_replace (pre post : List Label) (a r : Label)
    (hd : distinctNamesCI (pre ++ a :: post))
    (hr : ∀ b ∈ pre ++ post, lowerStr b.name ≠ lowerStr r.name) :
    distinctNamesCI (pre ++ r :: post) := by
  unfold distinctNamesCI at hd ⊢
  rw [List.map_append, List.map_cons, List.nodup_middle, List.nodup_cons] at hd ⊢
  refine ⟨?_, hd.2⟩
  intro hmem
  rw [← List.map_append] at hmem
  obtain ⟨b, hb, hfb⟩ := List.mem_map.mp hmem
  exact hr b hb hfb

theorem updateLabelAt_isSome (labels : List Label) (id : String) (u : LabelUpdate)
    (now : Nat) (hex : ∃ l ∈ labels, l.id = id) :
    ∃ r labels', updateLabelAt labels id u now = some (r, labels') := by
  obtain ⟨l, hl, hlid⟩ := hex
  exact @replaceFirst_isSome _ (fun l => decide (l.id = id))
    (fun l => applyLabelUpdate l u now) labels ⟨l, hl, by simpa using hlid⟩

theorem labelNameConflict_true_of (labels : List Label) (id : String) (u : LabelUpdate)
    (s : String) (hu : u.name = some s) (hs : s ≠ "")
    (hconf : ∃ l ∈ labels, ¬ l.id = id ∧ lowerStr l.name = lowerStr s) :
    labelNameConflict labels id u = true := by
  obtain ⟨l, hl, hlid, hlname⟩ := hconf
  simp only [labelNameConflict, hu]
  rw [decide_eq_false hs]
  simp only [Bool.not_false, Bool.true_and]
  exact List.any_eq_true.mpr ⟨l, hl, by rw [decide_eq_true hlid, decide_eq_true hlname]; rfl⟩

theorem updateLabel_ok_some_inv (labels : List Label) (id : String) (u : LabelUpdate)
    (now : Nat) (r : Label) (labels' : List Label)
    (h : updateLabel labels id u now = Except.ok (some (r, labels'))) :
    updateLabelAt labels id u now = some (r, labels') ∧
    labelNameConflict labels id u = false := by
  cases hat : updateLabelAt labels id u now with
  | none =>
    simp only [updateLabel, hat] at h
    exact absurd h (by simp)
  | some res =>
    obtain ⟨r', labels''⟩ := res
    simp only [updateLabel, hat] at h
    by_cases hc : labelNameConflict labels id u = true
    · rw [if_pos hc] at h
      exact absurd h (by simp)
    · rw [if_neg hc] at h
      simp only [Except.ok.injEq, Option.some.injEq, Prod.mk.injEq] at h
      obtain ⟨h1, h2⟩ := h
      subst h1
      subst h2
      exact ⟨rfl, by simpa using hc⟩

theorem updateTaskLabel_ok_some_inv (labels : List TaskLabel) (id : String)
    (u : LabelUpdate) (now : Nat) (r : TaskLabel) (labels' : List TaskLabel)
    (h : updateTaskLabel labels id u now = Except.ok (some (r, labels'))) :
    updateLabelAt labels id u now = some (r, labels') ∧
    labelNameConflict labels id u = false := by
  cases hat : updateLabelAt labels id u now with
  | none =>
    simp only [updateTaskLabel, hat] at h
    exact absurd h (by simp)
  | some res =>
    obtain ⟨r', labels''⟩ := res
    simp only [updateTaskLabel, hat] at h
    by_cases hc : labelNameConflict labels id u = true
    · rw [if_pos hc] at h
      exact absurd h (by simp)
    · rw [if_neg hc] at h
      simp only [Except.ok.injEq, Option.some.injEq, Prod.mk.injEq] at h
      obtain ⟨h1, h2⟩ := h
      subst h1
      subst h2
      exact ⟨rfl, by simpa using hc⟩

theorem updateAt_preserves_distinctNames (labels : List Label) (id : String)
    (u : LabelUpdate) (now : Nat) (r : Label) (labels' : List Label)
    (hd : distinctNamesCI labels) (hids : (labels.map Label.id).Nodup)
    (hn : ∀ s, u.name = some s → s ≠ "")
    (hat : updateLabelAt labels id u now = some (r, labels'))
    (hc : labelNameConflict labels id u = false) :
    distinctNamesCI labels' := by
  have hat' : replaceFirst (fun l => decide (l.id = id))
      (fun l => applyLabelUpdate l u now) labels = some (r, labels') := hat
  obtain ⟨pre, a, post, hdec, hpre, hp, hr, hl'⟩ := replaceFirst_some_decomp hat'
  rw [decide_eq_true_eq] at hp
  subst hdec
  subst hl'
  apply distinctNamesCI_replace pre post a _ hd
  cases hu : u.name with
  | none =>
    have hname : (applyLabelUpdate a u now).name = a.name := by
      simp [applyLabelUpdate, hu]
    rw [hname]
    have hd' : ((pre ++ a :: post).map (fun l => lowerStr l.name)).Nodup := hd
    exact nodup_map_middle_ne (fun l => lowerStr l.name) pre post a hd'
  | some s =>
    have hs : s ≠ "" := hn s hu
    have hname : (applyLabelUpdate a u now).name = s := by
      simp [applyLabelUpdate, hu]
    rw [hname]
    simp only [labelNameConflict, hu, decide_eq_false hs, Bool.not_false,
      Bool.true_and] at hc
    intro b hb
    have hbid : ¬ b.id = id := by
      have hba := nodup_map_middle_ne Label.id pre post a hids b hb
      rw [hp] at hba
      exact hba
    have hbmem : b ∈ pre ++ a :: post := by
      rcases List.mem_append.mp hb with hb' | hb'
      · exact List.mem_append_left _ hb'
      · exact List.mem_append_right _ (List.mem_cons_of_mem a hb')
    have hq := List.any_eq_false.mp hc b hbmem
    rw [decide_eq_true hbid, Bool.true_and] at hq
    rw [decide_eq_true_eq] at hq
    exact hq

theorem createAppend_preserves_distinctNames (labels : List Label) (d : LabelData)
    (newId : String) (now : Nat) (hd : distinctNamesCI labels)
    (hall : ∀ l ∈ labels, lowerStr l.name ≠ lowerStr d.name) :
    distinctNamesCI (labels ++ [{ id := newId, name := d.name, color := d.color,
                                  createdAt := now, updatedAt := now }]) := by
  unfold distinctNamesCI at hd ⊢
  rw [List.map_append, List.nodup_append]
  refine ⟨hd, by simp, ?_⟩
  intro x hx hx'
  simp only [List.map_cons, List.map_nil, List.mem_singleton] at hx'
  obtain ⟨l, hl, hfl⟩ := List.mem_map.mp hx
  exact hall l hl (by rw [hfl, hx'])

/-- C2 (amended): over collections with case-insensitively distinct
names and distinct ids, `create` with a clashing name raises the domain
error (before any write, so storage is untouched), a non-clashing
`create` persists and preserves distinctness, `update` renaming a label
to a NON-EMPTY name clashing with another label raises the domain error
(again before any write), and any `update` that succeeds with a new name
that is non-empty (or no rename at all) preserves distinctness — the
empty-string rename escapes the truthiness-guarded conflict check, which
is why the non-empty restriction is required (see the counterexample).
Both label families covered. -/
theorem label_name_uniqueness_preserved
    (labels tlabels : List Label) (d td : LabelData) (id tid newId tnewId : String)
    (u tu : LabelUpdate) (now tnow : Nat)
    (hd : distinctNamesCI labels) (hids : (labels.map Label.id).Nodup)
    (hn : ∀ s, u.name = some s → s ≠ "")
    (htd : distinctNamesCI tlabels) (htids : (tlabels.map Label.id).Nodup)
    (htn : ∀ s, tu.name = some s → s ≠ "") :
    ((∃ l ∈ labels, lowerStr l.name = lowerStr d.name) →
      createLabel labels d newId now =
        Except.error "Label with this name already exists") ∧
    ((∀ l ∈ labels, lowerStr l.name ≠ lowerStr d.name) →
      ∃ nl labels', createLabel labels d newId now = Except.ok (nl, labels') ∧
        distinctNamesCI labels') ∧
    ((∃ l ∈ labels, l.id = id) →
      (∃ s, u.name = some s ∧ ∃ l ∈ labels, ¬ l.id = id ∧ lowerStr l.name = lowerStr s) →
      updateLabel labels id u now =
        Except.error "Label with this name already exists") ∧
    (∀ r labels', updateLabel labels id u now = Except.ok (some (r, labels')) →
      distinctNamesCI labels') ∧
    ((∃ l ∈ tlabels, lowerStr l.name = lowerStr td.name) →
      createTaskLabel tlabels td tnewId tnow =
        Except.error "Task label with this name already exists") ∧
    ((∀ l ∈ tlabels, lowerStr l.name ≠ lowerStr td.name) →
      ∃ nl tlabels', createTaskLabel tlabels td tnewId tnow = Except.ok (nl, tlabels') ∧
        distinctNamesCI tlabels') ∧
    ((∃ l ∈ tlabels, l.id = tid) →
      (∃ s, tu.name = some s ∧ ∃ l ∈ tlabels, ¬ l.id = tid ∧ lowerStr l.name = lowerStr s) →
      updateTaskLabel tlabels tid tu tnow =
        Except.error "Task label with this name already exists") ∧
    (∀ r tlabels', updateTaskLabel tlabels tid tu tnow = Except.ok (some (r, tlabels')) →
      distinctNamesCI tlabels') := by
  refine ⟨?_, ?_, ?_, ?_, ?_, ?_, ?_, ?_⟩
  · intro ⟨l, hl, hlname⟩
    rw [createLabel, if_pos (List.any_eq_true.mpr ⟨l, hl, by simpa using hlname⟩)]
  · intro hall
    have hany : labels.any (fun l => decide (lowerStr l.name = lowerStr d.name)) = false :=
      List.any_eq_false.mpr (fun l hl => by simp [hall l hl])
    rw [createLabel, if_neg (by simp [hany])]
    exact ⟨_, _, rfl, createAppend_preserves_distinctNames labels d newId now hd hall⟩
  · intro hex ⟨s, hu, hconf⟩
    obtain ⟨r, labels', hat⟩ := updateLabelAt_isSome labels id u now hex
    have hc := labelNameConflict_true_of labels id u s hu (hn s hu) hconf
    simp only [updateLabel, hat]
    rw [if_pos hc]
  · intro r labels' h
    obtain ⟨hat, hc⟩ := updateLabel_ok_some_inv labels id u now r labels' h
    exact updateAt_preserves_distinctNames labels id u now r labels' hd hids hn hat hc
  · intro ⟨l, hl, hlname⟩
    rw [createTaskLabel, if_pos (List.any_eq_true.mpr ⟨l, hl, by simpa using hlname⟩)]
  · intro hall
    have hany : tlabels.any (fun l => decide (lowerStr l.name = lowerStr td.name)) = false :=
      List.any_eq_false.mpr (fun l hl => by simp [hall l hl])
    rw [createTaskLabel, if_neg (by simp [hany])]
    exact ⟨_, _, rfl, createAppend_preserves_distinctNames tlabels td tnewId tnow htd hall⟩
  · intro hex ⟨s, hu, hconf⟩
    obtain ⟨r, tlabels', hat⟩ := updateLabelAt_isSome tlabels tid tu tnow hex
    have hc := labelNameConflict_true_of tlabels tid tu s hu (htn s hu) hconf
    simp only [updateTaskLabel, hat]
    rw [if_pos hc]
  · intro r tlabels' h
    obtain ⟨hat, hc⟩ := updateTaskLabel_ok_some_inv tlabels tid tu tnow r tlabels' h
    exact updateAt_preserves_distinctNames tlabels tid tu tnow r tlabels' htd htids htn hat hc

/-- C2 counterexample: `[eLabel, xLabel]` has case-insensitively distinct
names, yet renaming `xLabel` to the empty string — which matches
`eLabel`'s name case-insensitively — raises no error (the truthiness
guard `if (updates.name)` skips the conflict check for "") and persists a
collection with two case-insensitively equal names, refuting the claim
as stated. -/
theorem label_update_empty_name_counterexample :
    distinctNamesCI [eLabel, xLabel] ∧
    lowerStr "" = lowerStr eLabel.name ∧
    updateLabel [eLabel, xLabel] "label_x" emptyRename 7 =
      Except.ok (some ({ id := "label_x", name := "", color := "#000000",
                         createdAt := 0, updatedAt := 7 },
                       [eLabel, { id := "label_x", name := "", color := "#000000",
                                  createdAt := 0, updatedAt := 7 }])) ∧
    ¬ distinctNamesCI [eLabel, { id := "label_x", name := "", color := "#000000",
                                 createdAt := 0, updatedAt := 7 }] := by
  refine ⟨by unfold distinctNamesCI; decide, by decide, rfl, by unfold distinctNamesCI; decide⟩

theorem findByIdAndUser_enforces_ownership_witness :
    (plainNote ∈ [plainNote] ∧ ([plainNote].map Note.id).Nodup ∧ "u2" ≠ plainNote.userId ∧
     todoTask ∈ [todoTask] ∧ ([todoTask].map Task.id).Nodup ∧ "u2" ≠ todoTask.userId) ∧
    (findNoteByIdAndUserId [plainNote] plainNote.id "u2" = none ∧
     findNoteById [plainNote] plainNote.id = some plainNote ∧
     findTaskByIdAndUserId [todoTask] todoTask.id "u2" = none ∧
     findTaskById [todoTask] todoTask.id = some todoTask) :=
  ⟨⟨by decide, by decide, by decide, by decide, by decide, by decide⟩,
   findByIdAndUser_enforces_ownership [plainNote] [todoTask] plainNote todoTask "u2" "u2"
     (by decide) (by decide) (by decide) (by decide) (by decide) (by decide)⟩

theorem create_then_findById_roundtrip_witness :
    ((∀ n ∈ [plainNote], n.id ≠ "note_9") ∧ (∀ t ∈ [todoTask], t.id ≠ "task_9")) ∧
    (findNoteById (createNote [plainNote] sampleNoteData "note_9" 5).2
        (createNote [plainNote] sampleNoteData "note_9" 5).1.id =
      some (createNote [plainNote] sampleNoteData "note_9" 5).1 ∧
     (createNote [plainNote] sampleNoteData "note_9" 5).1.createdAt = 5 ∧
     (createNote [plainNote] sampleNoteData "note_9" 5).1.updatedAt = 5 ∧
     findTaskById (createTask [todoTask] sampleTaskData "task_9" 6).2
        (createTask [todoTask] sampleTaskData "task_9" 6).1.id =
      some (createTask [todoTask] sampleTaskData "task_9" 6).1 ∧
     (createTask [todoTask] sampleTaskData "task_9" 6).1.createdAt = 6 ∧
     (createTask [todoTask] sampleTaskData "task_9" 6).1.updatedAt = 6) :=
  ⟨⟨by decide, by decide⟩,
   create_then_findById_roundtrip [plainNote] sampleNoteData "note_9" 5
     [todoTask] sampleTaskData "task_9" 6 (by decide) (by decide)⟩

theorem update_preserves_identity_fields_witness :
    (findNoteByIdAndUserId [plainNote] "note_1" "u1" = some plainNote ∧
     plainNote.updatedAt ≤ 7 ∧
     findTaskByIdAndUserId [todoTask] "task_1" "u1" = some todoTask ∧
     todoTask.updatedAt ≤ 9) ∧
    ((∃ r notes', updateNote [plainNote] "note_1" "u1" stampUpd 7 = some (r, notes') ∧
       r.id = plainNote.id ∧ r.userId = plainNote.userId ∧
       r.createdAt = plainNote.createdAt ∧
       r.updatedAt = 7 ∧ plainNote.updatedAt ≤ r.updatedAt) ∧
     (∃ r tasks', updateTask [todoTask] "task_1" "u1" taskStampUpd 9 = some (r, tasks') ∧
       r.id = todoTask.id ∧ r.userId = todoTask.userId ∧
       r.createdAt = todoTask.createdAt ∧
       r.updatedAt = 9 ∧ todoTask.updatedAt ≤ r.updatedAt)) :=
  ⟨⟨by decide, by decide, by decide, by decide⟩,
   update_preserves_identity_fields [plainNote] [todoTask] "note_1" "u1" "task_1" "u1"
     stampUpd taskStampUpd 7 9 plainNote todoTask
     (by decide) (by decide) (by decide) (by decide)⟩

theorem deleteAllDone_removes_exactly_done_witness :
    (deleteAllDoneTasks tasks0 [] (fun _ => false) "u1").2.2 = 2 ∧
    (deleteAllDoneTasks tasks0 [] (fun _ => false) "u1").1 =
      [todoTask, progTask, otherUserTask] := by
  have h := deleteAllDone_removes_exactly_done tasks0 [] (fun _ => false) "u1"
  exact ⟨h.1.trans (by decide), h.2.1.trans (by decide)⟩

theorem delete_removes_record_best_effort_witness :
    (∃ m ∈ [taggedNote], m.id = "note_2" ∧ m.userId = "u1") ∧
    (deleteNote [taggedNote] ["file_1.txt"] (fun _ => true) "note_2" "u1").2.2 = true ∧
    (deleteNote [taggedNote] ["file_1.txt"] (fun _ => true) "note_2" "u1").1 = [] ∧
    (deleteNote [taggedNote] ["file_1.txt"] (fun _ => true) "note_2" "u1").2.1 =
      ["file_1.txt"] ∧
    (∃ m ∈ [doneTask1], m.id = "task_3" ∧ m.userId = "u1") ∧
    (deleteTask [doneTask1] ["task_file_1.txt"] (fun _ => false) "task_3" "u1").2.2 = true ∧
    (deleteTask [doneTask1] ["task_file_1.txt"] (fun _ => false) "task_3" "u1").1 = [] := by
  have h := delete_removes_record_best_effort [taggedNote] [doneTask1]
    ["file_1.txt"] ["task_file_1.txt"] (fun _ => true) (fun _ => false)
    "note_2" "u1" "task_3" "u1"
  exact ⟨by decide, (h.2.1 (by decide)).1, ((h.2.1 (by decide)).2).trans (by decide),
    by decide, by decide, (h.2.2.2 (by decide)).1,
    ((h.2.2.2 (by decide)).2).trans (by decide)⟩

theorem omitted_dueDate_defaults_to_two_days_witness :
    (sampleBody.dueDate = none ∧ ¬ sampleBody.title = "" ∧ ¬ sampleBody.content = "") ∧
    (∃ t tasks', postCreateTask [] [] sampleBody "u1" "task_9" 1000 = some (t, tasks') ∧
      t.dueDate = generateDefaultDueDate 1000 ∧ t.dueDate = 1000 + 2 * 86400000 ∧
      t.createdAt = 1000) :=
  ⟨⟨rfl, by decide, by decide⟩,
   omitted_dueDate_defaults_to_two_days [] [] sampleBody "u1" "task_9" 1000
     rfl (by decide) (by decide)⟩

theorem removeFile_unknown_fileId_restamps_witness :
    (findNoteByIdAndUserId [taggedNote] "note_2" "u1" = some taggedNote ∧
     (∀ f ∈ taggedNote.files, f.id ≠ "file_z") ∧
     findTaskByIdAndUserId [doneTask1] "task_3" "u1" = some doneTask1 ∧
     (∀ f ∈ doneTask1.files, f.id ≠ "task_file_z")) ∧
    ((∃ pre post, [taggedNote] = pre ++ taggedNote :: post ∧
       removeFileFromNote [taggedNote] ["file_1.txt"] (fun _ => false)
           "note_2" "u1" "file_z" 7 =
         (some { taggedNote with updatedAt := 7 },
          pre ++ ({ taggedNote with updatedAt := 7 } : Note) :: post, ["file_1.txt"])) ∧
     (∃ pre post, [doneTask1] = pre ++ doneTask1 :: post ∧
       removeFileFromTask [doneTask1] ["task_file_1.txt"] (fun _ => false)
           "task_3" "u1" "task_file_z" 8 =
         (some { doneTask1 with updatedAt := 8 },
          pre ++ ({ doneTask1 with updatedAt := 8 } : Task) :: post,
          ["task_file_1.txt"]))) :=
  ⟨⟨by decide, by decide, by decide, by decide⟩,
   removeFile_unknown_fileId_restamps [taggedNote] [doneTask1]
     ["file_1.txt"] ["task_file_1.txt"] (fun _ => false) (fun _ => false)
     "note_2" "u1" "file_z" "task_3" "u1" "task_file_z" 7 8 taggedNote doneTask1
     (by decide) (by decide) (by decide) (by decide)⟩

theorem label_delete_cascade_restamps_all_parents_witness :
    ((∃ l ∈ [wLabel], l.id = "label_a") ∧ ([wLabel].map Label.id).Nodup ∧
     (∃ l ∈ [wLabel], l.id = "label_a") ∧ ([wLabel].map Label.id).Nodup) ∧
    ((deleteLabel [wLabel] [taggedNote] "label_a" 5).1 = true ∧
     (∀ l ∈ (deleteLabel [wLabel] [taggedNote] "label_a" 5).2.1, l.id ≠ "label_a") ∧
     (deleteLabel [wLabel] [taggedNote] "label_a" 5).2.2 =
       [taggedNote].map (fun n =>
         { n with labels := n.labels.filter (fun l => !decide (l.id = "label_a")),
                  updatedAt := 5 }) ∧
     (deleteTaskLabel [wLabel] [] "label_a" 6).1 = true ∧
     (∀ l ∈ (deleteTaskLabel [wLabel] [] "label_a" 6).2.1, l.id ≠ "label_a") ∧
     (deleteTaskLabel [wLabel] [] "label_a" 6).2.2 =
       ([] : List Task).map (fun t =>
         { t with labels := t.labels.filter (fun l => !decide (l.id = "label_a")),
                  updatedAt := 6 })) :=
  ⟨⟨by decide, by decide, by decide, by decide⟩,
   label_delete_cascade_restamps_all_parents [wLabel] [taggedNote] [wLabel] []
     "label_a" "label_a" 5 6 (by decide) (by decide) (by decide) (by decide)⟩

theorem label_name_uniqueness_preserved_witness :
    (distinctNamesCI [wLabel, xLabel] ∧ ([wLabel, xLabel].map Label.id).Nodup ∧
     (∀ s, renameToWork.name = some s → s ≠ "")) ∧
    (((∃ l ∈ [wLabel, xLabel], lowerStr l.name = lowerStr dupLabelData.name) →
       createLabel [wLabel, xLabel] dupLabelData "label_n" 11 =
         Except.error "Label with this name already exists") ∧
     ((∀ l ∈ [wLabel, xLabel], lowerStr l.name ≠ lowerStr dupLabelData.name) →
       ∃ nl labels', createLabel [wLabel, xLabel] dupLabelData "label_n" 11 =
         Except.ok (nl, labels') ∧ distinctNamesCI labels') ∧
     ((∃ l ∈ [wLabel, xLabel], l.id = "label_x") →
       (∃ s, renameToWork.name = some s ∧
         ∃ l ∈ [wLabel, xLabel], ¬ l.id = "label_x" ∧ lowerStr l.name = lowerStr s) →
       updateLabel [wLabel, xLabel] "label_x" renameToWork 11 =
         Except.error "Label with this name already exists") ∧
     (∀ r labels', updateLabel [wLabel, xLabel] "label_x" renameToWork 11 =
         Except.ok (some (r, labels')) → distinctNamesCI labels') ∧
     ((∃ l ∈ [wLabel, xLabel], lowerStr l.name = lowerStr dupLabelData.name) →
       createTaskLabel [wLabel, xLabel] dupLabelData "label_m" 12 =
         Except.error "Task label with this name already exists") ∧
     ((∀ l ∈ [wLabel, xLabel], lowerStr l.name ≠ lowerStr dupLabelData.name) →
       ∃ nl tlabels', createTaskLabel [wLabel, xLabel] dupLabelData "label_m" 12 =
         Except.ok (nl, tlabels') ∧ distinctNamesCI tlabels') ∧
     ((∃ l ∈ [wLabel, xLabel], l.id = "label_x") →
       (∃ s, renameToWork.name = some s ∧
         ∃ l ∈ [wLabel, xLabel], ¬ l.id = "label_x" ∧ lowerStr l.name = lowerStr s) →
       updateTaskLabel [wLabel, xLabel] "label_x" renameToWork 12 =
         Except.error "Task label with this name already exists") ∧
     (∀ r tlabels', updateTaskLabel [wLabel, xLabel] "label_x" renameToWork 12 =
         Except.ok (some (r, tlabels')) → distinctNamesCI tlabels')) :=
  ⟨⟨by unfold distinctNamesCI; decide, by decide,
    fun s hs => by
      rw [show renameToWork.name = some "wORK" from rfl] at hs
      injection hs with h
      rw [← h]
      decide⟩,
   label_name_uniqueness_preserved [wLabel, xLabel] [wLabel, xLabel]
     dupLabelData dupLabelData "label_x" "label_x" "label_n" "label_m"
     renameToWork renameToWork 11 12
     (by unfold distinctNamesCI; decide) (by decide)
     (fun s hs => by
       rw [show renameToWork.name = some "wORK" from rfl] at hs
       injection hs with h
       rw [← h]
       decide)
     (by unfold distinctNamesCI; decide) (by decide)
     (fun s hs => by
       rw [show renameToWork.name = some "wORK" from rfl] at hs
       injection hs with h
       rw [← h]
       decide)⟩

end NoteService
